import Mathlib

/-!
Shallow embedding of `src/main.py` of codeintel-input-sanitization-checker.

The program validates a run configuration (target path, tool list, ignore
paths), then for each requested tool builds a command line, launches it as a
subprocess, collects (return code, stdout, stderr) per tool into an
insertion-ordered dictionary, and finally writes one text block per dictionary
entry either to the configured output file or to standard output.

Python truthiness of the optional arguments (`if ignore:`, `if output:`) is
modelled explicitly; the external world (filesystem existence checks, process
execution, writability of the output file) is an explicit environment record.
Process execution is indexed by the invocation counter so that two invocations
of the same command may behave differently, as real subprocesses do.
-/

namespace CodeIntel

/-- Python truthiness of an optional list (`None` and `[]` are falsy). -/
def truthyList : Option (List String) → Bool
  | none => false
  | some l => !l.isEmpty

/-- Python truthiness of an optional string (`None` and `""` are falsy). -/
def truthyStr : Option String → Bool
  | none => false
  | some s => !s.isEmpty

/-- The underlying list of an optional ignore list (`[]` when absent). -/
def ignoreVal : Option (List String) → List String
  | none => []
  | some l => l

/-- The underlying string of an optional output path (`""` when absent). -/
def outputVal : Option String → String
  | none => ""
  | some s => s

/-- Source `main.py` line 45-52: the bandit command line.
`["bandit", "-r", target, "-q"]`, then `["-s", rules]` if offensive, then
`["-x", i]` for each ignore path, then `["-o", output, "-f", "txt"]`. -/
def bandit_command (target : String) (ignore : Option (List String))
    (output : Option String) (offensive : Bool) : List String :=
  ["bandit", "-r", target, "-q"]
    ++ (if offensive then ["-s", "B101,B301,B603,B605,B608"] else [])
    ++ (if truthyList ignore then (ignoreVal ignore).flatMap (fun i => ["-x", i]) else [])
    ++ (if truthyStr output then ["-o", outputVal output, "-f", "txt"] else [])

/-- Source `main.py` line 55-60: the flake8 command line.
`["flake8", target]`, then `["--exclude", ",".join(ignore)]`, then
`["--output-file", output]`. -/
def flake8_command (target : String) (ignore : Option (List String))
    (output : Option String) : List String :=
  ["flake8", target]
    ++ (if truthyList ignore then ["--exclude", String.intercalate "," (ignoreVal ignore)] else [])
    ++ (if truthyStr output then ["--output-file", outputVal output] else [])

/-- Source `main.py` line 62-66: the pylint command line.
`["pylint", target, "--disable=all", "--enable=security", "--reports=n"]`,
then `["--ignore", ",".join(ignore)]`, then `["--output", output]`. -/
def pylint_command (target : String) (ignore : Option (List String))
    (output : Option String) : List String :=
  ["pylint", target, "--disable=all", "--enable=security", "--reports=n"]
    ++ (if truthyList ignore then ["--ignore", String.intercalate "," (ignoreVal ignore)] else [])
    ++ (if truthyStr output then ["--output", outputVal output] else [])

/-- Source `main.py` line 44-69: dispatch of `run_tool`'s command construction on the
tool name; `none` is the `else: raise ValueError(...)` branch. -/
def build_command (tool target : String) (ignore : Option (List String))
    (output : Option String) (offensive : Bool) : Option (List String) :=
  if tool = "bandit" then some (bandit_command target ignore output offensive)
  else if tool = "flake8" then some (flake8_command target ignore output)
  else if tool = "pylint" then some (pylint_command target ignore output)
  else none

/-- A Python exception as it can occur inside `run_tool`'s `try` block:
the `ValueError` raised for an unsupported tool, a `FileNotFoundError` from
`subprocess.Popen`, or any other execution-time exception. -/
inductive PyErr where
  | valueError (msg : String)
  | fileNotFound (msg : String)
  | otherExc (msg : String)
deriving DecidableEq, Repr

/-- Python `str(e)` for each modelled exception. -/
def PyErr.str : PyErr → String
  | .valueError m => m
  | .fileNotFound m => m
  | .otherExc m => m

/-- Behaviour of one attempted process launch: the process completes with a
return code and decoded output streams, or `Popen`/`communicate` raises. -/
inductive ExecBehavior where
  | completes (returncode : Int) (stdout stderr : String)
  | raisesFileNotFound (msg : String)
  | raisesOther (msg : String)
deriving DecidableEq, Repr

/-- The external world: filesystem existence, process execution (indexed by
the invocation counter), and whether the output file can be written. -/
structure Env where
  pathExists : String → Bool
  exec : Nat → List String → ExecBehavior
  writeOk : Bool

/-- Source `main.py` line 42-80: the body of `run_tool`'s `try` block. Returns the
result tuple or the exception that escapes the block, together with the list
of attempted process launches (empty when the unsupported-tool `ValueError`
fires before `Popen` is reached). -/
def run_tool_try (env : Env) (k : Nat) (tool target : String)
    (ignore : Option (List String)) (output : Option String) (offensive : Bool) :
    Except PyErr (Int × String × String) × List (List String) :=
  match build_command tool target ignore output offensive with
  | none => (.error (.valueError ("Unsupported tool: " ++ tool)), [])
  | some cmd =>
    match env.exec k cmd with
    | .completes rc out err => (.ok (rc, out, err), [cmd])
    | .raisesFileNotFound m => (.error (.fileNotFound m), [cmd])
    | .raisesOther m => (.error (.otherExc m), [cmd])

/-- Source `main.py` line 28-87: `run_tool`, i.e. the `try` block with both `except`
clauses applied: any exception is converted to `(1, "", str(e))`. The second
component is the list of attempted process launches. -/
def run_tool (env : Env) (k : Nat) (tool target : String)
    (ignore : Option (List String)) (output : Option String) (offensive : Bool) :
    (Int × String × String) × List (List String) :=
  match run_tool_try env k tool target ignore output offensive with
  | (.ok r, launched) => (r, launched)
  | (.error e, launched) => ((1, "", e.str), launched)

/-- Source `main.py` line 91-102: `validate_target`. -/
def validate_target (env : Env) (target : String) : Bool :=
  env.pathExists target

/-- Source `main.py` line 113: the fixed supported tool list. -/
def valid_tools : List String := ["bandit", "flake8", "pylint"]

/-- Source `main.py` line 105-118: `validate_tools` — every requested name must be in
`valid_tools`. -/
def validate_tools (tools : List String) : Bool :=
  tools.all (fun t => decide (t ∈ valid_tools))

/-- Membership in the supported set, for stating theorems. -/
def isSupported (t : String) : Bool := decide (t ∈ valid_tools)

/-- Source `main.py` line 120-136: `validate_ignore_paths` — `None` passes, otherwise
every path must exist. -/
def validate_ignore_paths (env : Env) : Option (List String) → Bool
  | none => true
  | some l => l.all env.pathExists

/-- The parsed command-line arguments (`main.py` line 17-25). -/
structure Args where
  target : String
  tools : List String
  output : Option String
  ignore : Option (List String)
  offensive : Bool

/-- One entry of the `results` dictionary (`main.py` line 160). -/
structure ToolResult where
  return_code : Int
  stdout : String
  stderr : String
deriving DecidableEq, Repr

/-- Python dict assignment `d[k] = v`: update in place if the key is present
(keeping its position), otherwise append at the end. -/
def dictInsert (d : List (String × ToolResult)) (k : String) (v : ToolResult) :
    List (String × ToolResult) :=
  if d.any (fun p => decide (p.1 = k)) then d.map (fun p => if p.1 = k then (k, v) else p)
  else d ++ [(k, v)]

/-- Python dict lookup `d[k]` (first entry with the key; keys are unique by
construction). -/
def dictLookup (d : List (String × ToolResult)) (k : String) : Option ToolResult :=
  match d with
  | [] => none
  | p :: ps => if p.1 = k then some p.2 else dictLookup ps k

/-- Source `main.py` line 156-165: the tool loop. `k` counts tool invocations so far,
`results` is the accumulating dictionary, `launched` the attempted process
launches in order. -/
def runAll (env : Env) (a : Args) (ts : List String) (k : Nat)
    (results : List (String × ToolResult)) (launched : List (List String)) :
    List (String × ToolResult) × List (List String) :=
  match ts with
  | [] => (results, launched)
  | t :: rest =>
    let r := run_tool env k t a.target a.ignore a.output a.offensive
    runAll env a rest (k + 1) (dictInsert results t ⟨r.1.1, r.1.2.1, r.1.2.2⟩)
      (launched ++ r.2)

/-- The 40-character rule printed after each block (`"-" * 40`). -/
def ruleLine : String := String.mk (List.replicate 40 '-')

/-- Source `main.py` line 172-176 / 183-187: one report block for one tool. -/
def formatBlock (tool : String) (r : ToolResult) : String :=
  "Results for " ++ tool ++ ":\n"
    ++ "Return Code: " ++ toString r.return_code ++ "\n"
    ++ "Stdout:\n" ++ r.stdout ++ "\n"
    ++ "Stderr:\n" ++ r.stderr ++ "\n"
    ++ ruleLine ++ "\n"

/-- The whole report: one block per dictionary entry, in dictionary order. -/
def reportContent (results : List (String × ToolResult)) : String :=
  String.join (results.map (fun p => formatBlock p.1 p.2))

/-- The observable outcome of one run of `main`: process exit code, attempted
process launches in order, the results dictionary, the output file's final
content (path and text) if one was written, and what was printed to standard
output if anything was. -/
structure MainOutcome where
  exitCode : Nat
  launched : List (List String)
  results : List (String × ToolResult)
  written : Option (String × String)
  printed : Option String
deriving DecidableEq, Repr

/-- Source `main.py` line 139-189: `main`. Validation in order (target, tools, ignore
paths), each failure exiting with status 1 before any tool runs; then the tool
loop; then the report, to the output file when `args.output` is truthy (exit 1
if it cannot be written) and to standard output otherwise. -/
def main (env : Env) (a : Args) : MainOutcome :=
  if !(validate_target env a.target) then ⟨1, [], [], none, none⟩
  else if !(validate_tools a.tools) then ⟨1, [], [], none, none⟩
  else if truthyList a.ignore && !(validate_ignore_paths env a.ignore) then
    ⟨1, [], [], none, none⟩
  else
    let rl := runAll env a a.tools 0 [] []
    if truthyStr a.output then
      if env.writeOk then
        ⟨0, rl.2, rl.1, some (outputVal a.output, reportContent rl.1), none⟩
      else ⟨1, rl.2, rl.1, none, none⟩
    else ⟨0, rl.2, rl.1, none, some (reportContent rl.1)⟩

/-- The per-tool result as `main`'s loop stores it when the tool is run as
invocation number `k`. -/
def toolResultAt (env : Env) (a : Args) (t : String) (k : Nat) : ToolResult :=
  ⟨(run_tool env k t a.target a.ignore a.output a.offensive).1.1,
    (run_tool env k t a.target a.ignore a.output a.offensive).1.2.1,
    (run_tool env k t a.target a.ignore a.output a.offensive).1.2.2⟩

/-- Position of the last occurrence of `t` in `l` (`none` when absent). -/
def lastOccIdx (l : List String) (t : String) : Option Nat :=
  match l with
  | [] => none
  | a :: as =>
    match lastOccIdx as t with
    | some j => some (j + 1)
    | none => if a = t then some 0 else none

/-! ### Shared lemmas -/

theorem lastOccIdx_eq_none_iff (l : List String) (t : String) :
    lastOccIdx l t = none ↔ t ∉ l := by
  induction l with
  | nil => simp [lastOccIdx]
  | cons a as ih =>
    rcases h : lastOccIdx as t with _ | j
    · by_cases ha : a = t
      · simp [lastOccIdx, h, ha, ← ih]
      · simp [lastOccIdx, h, ha, ← ih]
        tauto
    · have : t ∈ as := by
        by_contra hc
        rw [← ih] at hc
        rw [hc] at h
        cases h
      simp [lastOccIdx, h, this]

theorem dictLookup_map_update (d : List (String × ToolResult)) (k : String) (v : ToolResult) :
    dictLookup (d.map (fun p => if p.1 = k then (k, v) else p)) k
      = if d.any (fun p => decide (p.1 = k)) then some v else none := by
  induction d with
  | nil => simp [dictLookup]
  | cons p ps ih =>
    by_cases hp : p.1 = k
    · simp [dictLookup, List.any_cons, hp, ih]
    · simp [dictLookup, List.any_cons, hp, ih]
      rw [decide_eq_false hp, Bool.false_or]

theorem dictLookup_map_update_ne (d : List (String × ToolResult)) (k k' : String)
    (v : ToolResult) (h : k' ≠ k) :
    dictLookup (d.map (fun p => if p.1 = k' then (k', v) else p)) k = dictLookup d k := by
  induction d with
  | nil => rfl
  | cons p ps ih =>
    by_cases hp : p.1 = k'
    · simp [dictLookup, hp, h, ih]
    · simp [dictLookup, hp, ih]

theorem dictLookup_append_right (d e : List (String × ToolResult)) (k : String)
    (h : d.any (fun p => decide (p.1 = k)) = false) :
    dictLookup (d ++ e) k = dictLookup e k := by
  induction d with
  | nil => simp
  | cons p ps ih =>
    rw [List.any_cons] at h
    obtain ⟨h1, h2⟩ := Bool.or_eq_false_iff.1 h
    have hp : ¬(p.1 = k) := of_decide_eq_false h1
    simp [dictLookup, hp]
    exact ih h2

theorem dictLookup_append_single_ne (d : List (String × ToolResult)) (k k' : String)
    (v : ToolResult) (h : k' ≠ k) :
    dictLookup (d ++ [(k', v)]) k = dictLookup d k := by
  induction d with
  | nil => simp [dictLookup, h]
  | cons p ps ih =>
    by_cases hp : p.1 = k <;> simp [dictLookup, hp, ih]

theorem dictLookup_insert_self (d : List (String × ToolResult)) (k : String) (v : ToolResult) :
    dictLookup (dictInsert d k v) k = some v := by
  unfold dictInsert
  cases hd : d.any (fun p => decide (p.1 = k))
  · simp only [hd, Bool.false_eq_true, if_false]
    rw [dictLookup_append_right d _ k hd]
    simp [dictLookup]
  · simp [hd, dictLookup_map_update]

theorem dictLookup_insert_ne (d : List (String × ToolResult)) (k k' : String)
    (v : ToolResult) (h : k' ≠ k) :
    dictLookup (dictInsert d k' v) k = dictLookup d k := by
  unfold dictInsert
  cases hd : d.any (fun p => decide (p.1 = k'))
  · simp only [hd, Bool.false_eq_true, if_false]
    exact dictLookup_append_single_ne d k k' v h
  · simp only [hd, if_true]
    exact dictLookup_map_update_ne d k k' v h

theorem map_update_keys (d : List (String × ToolResult)) (k : String) (v : ToolResult) :
    (d.map (fun p => if p.1 = k then (k, v) else p)).map Prod.fst = d.map Prod.fst := by
  rw [List.map_map]
  apply List.map_congr_left
  intro p _
  by_cases hp : p.1 = k <;> simp [hp]

theorem dictInsert_keys (d : List (String × ToolResult)) (k : String) (v : ToolResult) :
    (dictInsert d k v).map Prod.fst
      = if d.any (fun p => decide (p.1 = k)) then d.map Prod.fst
        else d.map Prod.fst ++ [k] := by
  unfold dictInsert
  cases hd : d.any (fun p => decide (p.1 = k))
  · rw [if_neg Bool.false_ne_true, if_neg Bool.false_ne_true]
    simp
  · rw [if_pos rfl, if_pos rfl]
    exact map_update_keys d k v

theorem any_key_iff (d : List (String × ToolResult)) (k : String) :
    d.any (fun p => decide (p.1 = k)) = true ↔ k ∈ d.map Prod.fst := by
  simp [List.any_eq_true, List.mem_map]

/-- A tool name outside the supported set reaches the `else: raise` branch of
the command construction. -/
theorem build_command_eq_none (tool target : String) (ignore : Option (List String))
    (output : Option String) (offensive : Bool) (h : isSupported tool = false) :
    build_command tool target ignore output offensive = none := by
  simp only [isSupported, valid_tools, decide_eq_false_iff_not, List.mem_cons,
    List.not_mem_nil, or_false] at h
  push_neg at h
  simp [build_command, h.1, h.2.1, h.2.2]

theorem run_tool_launch_supported (env : Env) (k : Nat) (t target : String)
    (ignore : Option (List String)) (output : Option String) (offensive : Bool)
    (h : isSupported t = true) :
    ∃ cmd, build_command t target ignore output offensive = some cmd
      ∧ (run_tool env k t target ignore output offensive).2 = [cmd] := by
  simp only [isSupported, valid_tools, decide_eq_true_eq, List.mem_cons,
    List.not_mem_nil, or_false] at h
  have hb : ∃ cmd, build_command t target ignore output offensive = some cmd := by
    rcases h with h | h | h <;> subst h
    · exact ⟨bandit_command target ignore output offensive, by simp [build_command]⟩
    · exact ⟨flake8_command target ignore output, by simp [build_command]⟩
    · exact ⟨pylint_command target ignore output, by simp [build_command]⟩
  obtain ⟨cmd, hb⟩ := hb
  refine ⟨cmd, hb, ?_⟩
  cases hE : env.exec k cmd <;> simp [run_tool, run_tool_try, hb, hE]

theorem run_tool_launched_cases (env : Env) (k : Nat) (t target : String)
    (ignore : Option (List String)) (output : Option String) (offensive : Bool) :
    (run_tool env k t target ignore output offensive).2 = []
    ∨ ∃ cmd, build_command t target ignore output offensive = some cmd
        ∧ (run_tool env k t target ignore output offensive).2 = [cmd] := by
  rcases hb : build_command t target ignore output offensive with _ | cmd
  · left
    simp [run_tool, run_tool_try, hb]
  · right
    refine ⟨cmd, rfl, ?_⟩
    cases hE : env.exec k cmd <;> simp [run_tool, run_tool_try, hb, hE]

theorem runAll_lookup_not_mem (env : Env) (a : Args) (ts : List String) :
    ∀ (k : Nat) res lau (t : String), t ∉ ts →
      dictLookup ((runAll env a ts k res lau).1) t = dictLookup res t := by
  induction ts with
  | nil => intro k res lau t _; simp [runAll]
  | cons u rest ih =>
    intro k res lau t ht
    simp only [runAll]
    rw [ih _ _ _ t (fun hc => ht (List.mem_cons_of_mem u hc))]
    exact dictLookup_insert_ne res t u _ (fun he => ht (he ▸ List.mem_cons_self u rest))

theorem runAll_lookup_last (env : Env) (a : Args) (ts : List String) :
    ∀ (k : Nat) res lau (t : String) (i : Nat), lastOccIdx ts t = some i →
      dictLookup ((runAll env a ts k res lau).1) t = some (toolResultAt env a t (k + i)) := by
  induction ts with
  | nil => intro k res lau t i h; simp [lastOccIdx] at h
  | cons u rest ih =>
    intro k res lau t i h
    simp only [lastOccIdx] at h
    simp only [runAll]
    rcases hrest : lastOccIdx rest t with _ | j
    · rw [hrest] at h
      by_cases hu : u = t
      · rw [if_pos hu] at h
        obtain rfl : (0 : Nat) = i := Option.some.inj h
        have hnm : t ∉ rest := (lastOccIdx_eq_none_iff rest t).1 hrest
        rw [runAll_lookup_not_mem env a rest _ _ _ t hnm]
        subst hu
        rw [dictLookup_insert_self]
        rfl
      · rw [if_neg hu] at h
        cases h
    · rw [hrest] at h
      obtain rfl : j + 1 = i := Option.some.inj h
      rw [ih _ _ _ t j hrest]
      have : k + 1 + j = k + (j + 1) := by omega
      rw [this]

theorem runAll_keys_mem (env : Env) (a : Args) (ts : List String) :
    ∀ (k : Nat) res lau (x : String),
      (x ∈ ((runAll env a ts k res lau).1).map Prod.fst
        ↔ x ∈ res.map Prod.fst ∨ x ∈ ts) := by
  induction ts with
  | nil => intro k res lau x; simp [runAll]
  | cons u rest ih =>
    intro k res lau x
    simp only [runAll]
    rw [ih]
    rw [dictInsert_keys]
    cases hd : res.any (fun p => decide (p.1 = u))
    · rw [if_neg Bool.false_ne_true]
      simp only [List.mem_append, List.mem_singleton, List.mem_cons]
      tauto
    · have hu : u ∈ res.map Prod.fst := (any_key_iff res u).1 hd
      rw [if_pos rfl]
      simp only [List.mem_cons]
      constructor
      · rintro (h | h)
        · exact Or.inl h
        · exact Or.inr (Or.inr h)
      · rintro (h | rfl | h)
        · exact Or.inl h
        · exact Or.inl hu
        · exact Or.inr h

theorem runAll_keys_nodup (env : Env) (a : Args) (ts : List String) :
    ∀ (k : Nat) res lau, (res.map Prod.fst).Nodup →
      (((runAll env a ts k res lau).1).map Prod.fst).Nodup := by
  induction ts with
  | nil => intro k res lau h; simpa [runAll] using h
  | cons u rest ih =>
    intro k res lau h
    simp only [runAll]
    apply ih
    rw [dictInsert_keys]
    cases hd : res.any (fun p => decide (p.1 = u))
    · rw [if_neg Bool.false_ne_true]
      have hu : u ∉ res.map Prod.fst := fun hc => by
        rw [← any_key_iff res u] at hc
        rw [hc] at hd
        cases hd
      refine List.nodup_append.2 ⟨h, List.nodup_singleton u, ?_⟩
      intro x hx hxu
      rw [List.mem_singleton] at hxu
      subst hxu
      exact hu hx
    · rw [if_pos rfl]
      exact h

theorem runAll_launched_len (env : Env) (a : Args) (ts : List String) :
    ∀ (k : Nat) res lau, (∀ u ∈ ts, isSupported u = true) →
      ((runAll env a ts k res lau).2).length = lau.length + ts.length := by
  induction ts with
  | nil => intro k res lau _; simp [runAll]
  | cons u rest ih =>
    intro k res lau h
    simp only [runAll]
    rw [ih _ _ _ (fun v hv => h v (List.mem_cons_of_mem u hv))]
    obtain ⟨cmd, _, hl⟩ := run_tool_launch_supported env k u a.target a.ignore a.output
      a.offensive (h u (List.mem_cons_self u rest))
    rw [hl]
    simp only [List.length_append, List.length_cons, List.length_nil]
    omega

theorem runAll_launched_mem (env : Env) (a : Args) (ts : List String) :
    ∀ (k : Nat) res lau (c : List String), c ∈ (runAll env a ts k res lau).2 →
      c ∈ lau ∨ ∃ t ∈ ts, build_command t a.target a.ignore a.output a.offensive = some c := by
  induction ts with
  | nil =>
    intro k res lau c hc
    simp only [runAll] at hc
    exact Or.inl hc
  | cons u rest ih =>
    intro k res lau c hc
    simp only [runAll] at hc
    rcases ih _ _ _ c hc with h | ⟨t, ht, hbt⟩
    · rcases List.mem_append.1 h with h | h
      · exact Or.inl h
      · rcases run_tool_launched_cases env k u a.target a.ignore a.output a.offensive
          with h0 | ⟨cmd, hb, hl⟩
        · rw [h0] at h
          cases h
        · rw [hl] at h
          rw [List.mem_singleton] at h
          subst h
          exact Or.inr ⟨u, List.mem_cons_self u rest, hb⟩
    · exact Or.inr ⟨t, List.mem_cons_of_mem u ht, hbt⟩

theorem truthyStr_some (p : String) (h : p ≠ "") : truthyStr (some p) = true := by
  cases hE : p.isEmpty
  · simp [truthyStr, hE]
  · exact absurd ((String.isEmpty_iff p).1 hE) h

theorem build_command_mem_output (t target p : String) (ignore : Option (List String))
    (offensive : Bool) (hne : p ≠ "") (cmd : List String)
    (hb : build_command t target ignore (some p) offensive = some cmd) : p ∈ cmd := by
  have htr : truthyStr (some p) = true := truthyStr_some p hne
  unfold build_command at hb
  by_cases hb1 : t = "bandit"
  · rw [if_pos hb1] at hb
    obtain rfl := Option.some.inj hb
    simp [bandit_command, htr, outputVal]
  · rw [if_neg hb1] at hb
    by_cases hb2 : t = "flake8"
    · rw [if_pos hb2] at hb
      obtain rfl := Option.some.inj hb
      simp [flake8_command, htr, outputVal]
    · rw [if_neg hb2] at hb
      by_cases hb3 : t = "pylint"
      · rw [if_pos hb3] at hb
        obtain rfl := Option.some.inj hb
        simp [pylint_command, htr, outputVal]
      · rw [if_neg hb3] at hb
        cases hb

theorem runAll_keys_of_nodup (env : Env) (a : Args) (ts : List String) :
    ∀ (k : Nat) res lau, ts.Nodup → (∀ t ∈ ts, t ∉ res.map Prod.fst) →
      ((runAll env a ts k res lau).1).map Prod.fst = res.map Prod.fst ++ ts := by
  induction ts with
  | nil => intro k res lau _ _; simp [runAll]
  | cons u rest ih =>
    intro k res lau hn hdis
    simp only [runAll]
    have hu : u ∉ res.map Prod.fst := hdis u (List.mem_cons_self u rest)
    have hany : res.any (fun p => decide (p.1 = u)) = false := by
      cases hA : res.any (fun p => decide (p.1 = u))
      · rfl
      · exact absurd ((any_key_iff res u).1 hA) hu
    have hdis' : ∀ t ∈ rest,
        t ∉ (dictInsert res u
          ⟨(run_tool env k u a.target a.ignore a.output a.offensive).1.1,
            (run_tool env k u a.target a.ignore a.output a.offensive).1.2.1,
            (run_tool env k u a.target a.ignore a.output a.offensive).1.2.2⟩).map Prod.fst := by
      intro t htr
      rw [dictInsert_keys, hany, if_neg Bool.false_ne_true]
      intro hc
      rcases List.mem_append.1 hc with hc | hc
      · exact hdis t (List.mem_cons_of_mem u htr) hc
      · rw [List.mem_singleton] at hc
        subst hc
        exact (List.nodup_cons.1 hn).1 htr
    rw [ih _ _ _ (List.Nodup.of_cons hn) hdis']
    rw [dictInsert_keys, hany, if_neg Bool.false_ne_true]
    simp [List.append_assoc]

/-- When every validation passes, `main` runs the tool loop: its results and
launched processes are those of `runAll` from the initial state. -/
theorem main_run_eq (env : Env) (a : Args) (h1 : validate_target env a.target = true)
    (h2 : validate_tools a.tools = true)
    (h3 : truthyList a.ignore = false ∨ validate_ignore_paths env a.ignore = true) :
    (main env a).results = (runAll env a a.tools 0 [] []).1
      ∧ (main env a).launched = (runAll env a a.tools 0 [] []).2 := by
  unfold main
  rcases h3 with h3 | h3 <;>
    cases hO : truthyStr a.output <;> cases hW : env.writeOk <;>
      simp [h1, h2, h3, hO, hW]

/-! ### Concrete environments and argument records used by witnesses -/

/-- An environment where every path exists, every process completes with exit
code equal to the invocation counter, and the output file is writable. -/
def env_ok : Env := ⟨fun _ => true, fun k _ => .completes (Int.ofNat k) "out" "", true⟩

/-- An environment where no path exists. -/
def env_missing : Env := ⟨fun _ => false, fun k _ => .completes (Int.ofNat k) "out" "", true⟩

/-- An environment where every launch raises `FileNotFoundError`. -/
def env_nf : Env :=
  ⟨fun _ => true, fun _ _ => .raisesFileNotFound "[Errno 2] No such file or directory", true⟩

/-- A basic argument record: one tool, no options. -/
def args_basic : Args := ⟨"proj", ["bandit"], none, none, false⟩

/-- Two distinct tools, no options. -/
def args_two : Args := ⟨"proj", ["bandit", "flake8"], none, none, false⟩

/-- A duplicated tool in the request list. -/
def args_dup : Args := ⟨"proj", ["bandit", "flake8", "bandit"], none, none, false⟩

/-- All three tools with an output file configured. -/
def args_out : Args := ⟨"proj", ["bandit", "flake8", "pylint"], some "report.txt", none, false⟩

/-! ### Claim theorems -/

/-- C1 counterexample: at the unsupported tool name "sometool", `run_tool`
does **not** fail with UnsupportedToolError as the claim states: the
`ValueError` raised inside the `try` block (second conjunct) is caught by the
generic `except Exception` handler, so `run_tool` returns the ordinary tuple
`(1, "", "Unsupported tool: sometool")` to its caller instead of raising. -/
theorem run_tool_unsupported_counterexample :
    run_tool env_ok 0 "sometool" "proj" none none false
        = ((1, "", "Unsupported tool: sometool"), [])
      ∧ (run_tool_try env_ok 0 "sometool" "proj" none none false).1
        = Except.error (PyErr.valueError "Unsupported tool: sometool") :=
  ⟨rfl, rfl⟩

/-- C1 (amended): for every tool identifier outside the supported set,
`run_tool` raises UnsupportedToolError (`ValueError`) inside its `try` block
before any process launch is attempted, but its own generic exception handler
catches it, so `run_tool` returns the synthetic failure result
`(1, "", "Unsupported tool: <tool>")` and no external process is launched. -/
theorem run_tool_unsupported (env : Env) (k : Nat) (tool target : String)
    (ignore : Option (List String)) (output : Option String) (offensive : Bool)
    (h : isSupported tool = false) :
    run_tool_try env k tool target ignore output offensive
        = (Except.error (PyErr.valueError ("Unsupported tool: " ++ tool)), [])
      ∧ run_tool env k tool target ignore output offensive
        = ((1, "", "Unsupported tool: " ++ tool), []) := by
  have hb := build_command_eq_none tool target ignore output offensive h
  refine ⟨?_, ?_⟩
  · simp [run_tool_try, hb]
  · simp [run_tool, run_tool_try, hb, PyErr.str]

/-- C1 witness: the amended theorem applied at the concrete unsupported
identifier "othertool". -/
theorem run_tool_unsupported_witness :
    isSupported "othertool" = false
      ∧ run_tool env_ok 0 "othertool" "proj" none none false
        = ((1, "", "Unsupported tool: othertool"), []) :=
  ⟨by decide,
    (run_tool_unsupported env_ok 0 "othertool" "proj" none none false (by decide)).2⟩

/-- C2: if any validation check fails (target missing, a tool name outside the
supported set, or a provided ignore path missing), `main` exits with status 1,
launches zero subprocesses, and produces no results and no report. -/
theorem main_validation_rejects (env : Env) (a : Args)
    (h : validate_target env a.target = false ∨ validate_tools a.tools = false
      ∨ (truthyList a.ignore = true ∧ validate_ignore_paths env a.ignore = false)) :
    main env a = ⟨1, [], [], none, none⟩ := by
  unfold main
  rcases h with h | h | ⟨h1, h2⟩
  · simp [h]
  · cases hT : validate_target env a.target <;> simp [hT, h]
  · cases hT : validate_target env a.target <;> cases hTo : validate_tools a.tools <;>
      simp [hT, hTo, h1, h2]

/-- C2 witness: with a nonexistent target, the run is rejected with exit
status 1 and zero subprocess invocations. -/
theorem main_validation_rejects_witness :
    validate_target env_missing args_basic.target = false
      ∧ main env_missing args_basic = ⟨1, [], [], none, none⟩ :=
  ⟨rfl, main_validation_rejects env_missing args_basic (Or.inl rfl)⟩

/-- C4: for every supported tool identifier and every target path, the command
line constructed by `run_tool` starts with the tool's executable name and
contains the target path verbatim and the tool's fixed base flags
(bandit: `-r`, `-q`; flake8: none beyond the executable name;
pylint: `--disable=all`, `--enable=security`, `--reports=n`). -/
theorem build_command_base_flags (target : String) (ignore : Option (List String))
    (output : Option String) (offensive : Bool) :
    (build_command "bandit" target ignore output offensive
        = some (bandit_command target ignore output offensive)
      ∧ (bandit_command target ignore output offensive).head? = some "bandit"
      ∧ target ∈ bandit_command target ignore output offensive
      ∧ "-r" ∈ bandit_command target ignore output offensive
      ∧ "-q" ∈ bandit_command target ignore output offensive)
    ∧ (build_command "flake8" target ignore output offensive
        = some (flake8_command target ignore output)
      ∧ (flake8_command target ignore output).head? = some "flake8"
      ∧ target ∈ flake8_command target ignore output)
    ∧ (build_command "pylint" target ignore output offensive
        = some (pylint_command target ignore output)
      ∧ (pylint_command target ignore output).head? = some "pylint"
      ∧ target ∈ pylint_command target ignore output
      ∧ "--disable=all" ∈ pylint_command target ignore output
      ∧ "--enable=security" ∈ pylint_command target ignore output
      ∧ "--reports=n" ∈ pylint_command target ignore output) := by
  refine ⟨⟨rfl, ?_, ?_, ?_, ?_⟩, ⟨rfl, ?_, ?_⟩, ⟨rfl, ?_, ?_, ?_, ?_, ?_⟩⟩ <;>
    simp [bandit_command, flake8_command, pylint_command]

/-- C3: for every process-launch failure — `FileNotFoundError` from a missing
executable or any other execution-time fault — `run_tool` returns the
synthetic failure result of exit code 1, empty stdout, and the error
description as non-empty stderr, without raising to the caller (it is a total
function returning an ordinary tuple); and in a validated run every requested
tool still gets an entry in the result set, so one tool's launch failure never
prevents the remaining tools from running. -/
theorem run_tool_contains_failures :
    (∀ (env : Env) (k : Nat) (tool target : String) (ignore : Option (List String))
        (output : Option String) (offensive : Bool) (cmd : List String) (msg : String),
      build_command tool target ignore output offensive = some cmd →
      (env.exec k cmd = ExecBehavior.raisesFileNotFound msg
        ∨ env.exec k cmd = ExecBehavior.raisesOther msg) →
      msg ≠ "" →
      run_tool env k tool target ignore output offensive = ((1, "", msg), [cmd])
        ∧ (run_tool env k tool target ignore output offensive).1.2.2 ≠ "")
    ∧ (∀ (env : Env) (a : Args),
        validate_target env a.target = true → validate_tools a.tools = true →
        (truthyList a.ignore = false ∨ validate_ignore_paths env a.ignore = true) →
        ∀ t ∈ a.tools, (dictLookup (main env a).results t).isSome = true) := by
  constructor
  · intro env k tool target ignore output offensive cmd msg hb hE hm
    have h1 : run_tool env k tool target ignore output offensive = ((1, "", msg), [cmd]) := by
      rcases hE with hE | hE <;> simp [run_tool, run_tool_try, hb, hE, PyErr.str]
    refine ⟨h1, ?_⟩
    rw [h1]
    simpa using hm
  · intro env a h1 h2 h3 t ht
    obtain ⟨i, hi⟩ : ∃ i, lastOccIdx a.tools t = some i := by
      rcases ho : lastOccIdx a.tools t with _ | i
      · exact absurd ht ((lastOccIdx_eq_none_iff a.tools t).1 ho)
      · exact ⟨i, rfl⟩
    rw [(main_run_eq env a h1 h2 h3).1]
    rw [runAll_lookup_last env a a.tools 0 [] [] t i hi]
    rfl

/-- C3 witness: with every launch raising `FileNotFoundError`, `run_tool`
returns the synthetic failure tuple for bandit, and the result set of a full
run still has an entry for the requested tool. -/
theorem run_tool_contains_failures_witness :
    run_tool env_nf 0 "bandit" "proj" none none false
        = ((1, "", "[Errno 2] No such file or directory"), [["bandit", "-r", "proj", "-q"]])
      ∧ (dictLookup (main env_nf args_basic).results "bandit").isSome = true :=
  ⟨(run_tool_contains_failures.1 env_nf 0 "bandit" "proj" none none false
      ["bandit", "-r", "proj", "-q"] "[Errno 2] No such file or directory"
      (by decide) (Or.inl rfl) (by decide)).1,
    run_tool_contains_failures.2 env_nf args_basic rfl (by decide) (Or.inl rfl)
      "bandit" (by decide)⟩

/-- C7: the process exit code is always 0 or 1; it is 1 exactly when the
target is missing, an invalid tool name is given, a provided ignore path is
missing, or an output file is configured and cannot be written — and hence 0
on every completed run, whatever exit codes the tools themselves return. -/
theorem main_exit_code (env : Env) (a : Args) :
    ((main env a).exitCode = 0 ∨ (main env a).exitCode = 1)
    ∧ ((main env a).exitCode = 1 ↔
        (validate_target env a.target = false ∨ validate_tools a.tools = false
          ∨ (truthyList a.ignore = true ∧ validate_ignore_paths env a.ignore = false)
          ∨ (truthyStr a.output = true ∧ env.writeOk = false))) := by
  unfold main
  cases hT : validate_target env a.target <;>
    cases hTo : validate_tools a.tools <;>
    cases hI : truthyList a.ignore <;>
    cases hV : validate_ignore_paths env a.ignore <;>
    cases hO : truthyStr a.output <;>
    cases hW : env.writeOk <;>
    simp [hT, hTo, hI, hV, hO, hW]

/-- C8: on a completed run the report is one block per entry of the result
set — whose keys are exactly the requested tools, in requested order (stated
here for duplicate-free requests; C9 covers duplicates) — each block built by
`formatBlock` from tool name, exit code, stdout and stderr and terminated by
the 40-character rule of `-` characters; the report goes to the configured
output file when one is set and to standard output otherwise. -/
theorem main_report_blocks (env : Env) (a : Args)
    (h1 : validate_target env a.target = true) (h2 : validate_tools a.tools = true)
    (h3 : truthyList a.ignore = false ∨ validate_ignore_paths env a.ignore = true)
    (hn : a.tools.Nodup) :
    ((main env a).results).map Prod.fst = a.tools
      ∧ (truthyStr a.output = false →
          (main env a).printed = some (reportContent (main env a).results)
            ∧ (main env a).written = none)
      ∧ (∀ p, a.output = some p → p ≠ "" → env.writeOk = true →
          (main env a).written = some (p, reportContent (main env a).results)
            ∧ (main env a).printed = none)
      ∧ ruleLine.length = 40
      ∧ ruleLine.data.all (fun c => decide (c = '-')) = true := by
  have hr := main_run_eq env a h1 h2 h3
  refine ⟨?_, ?_, ?_, ?_, ?_⟩
  · rw [hr.1]
    have := runAll_keys_of_nodup env a a.tools 0 [] [] hn (by simp)
    simpa using this
  · intro hO
    rw [hr.1]
    unfold main
    rcases h3 with h3 | h3 <;> simp [h1, h2, h3, hO]
  · intro p hp hpne hW
    rw [hr.1]
    have hO : truthyStr a.output = true := by
      rw [hp]
      exact truthyStr_some p hpne
    unfold main
    rcases h3 with h3 | h3 <;>
      simp [h1, h2, h3, hO, hW, hp, outputVal, truthyStr_some p hpne]
  · decide
  · decide

/-- C8 witness: a duplicate-free run with no output path prints the report of
its result set, whose keys are the requested tools in order. -/
theorem main_report_blocks_witness :
    ((main env_ok args_two).results).map Prod.fst = args_two.tools
      ∧ (main env_ok args_two).printed = some (reportContent (main env_ok args_two).results) :=
  ⟨(main_report_blocks env_ok args_two rfl (by decide) (Or.inl rfl) (by decide)).1,
    ((main_report_blocks env_ok args_two rfl (by decide) (Or.inl rfl) (by decide)).2.1
      rfl).1⟩

/-- C9: in a validated run, each requested tool is executed once per
occurrence (one attempted launch per list entry), while the result set has
exactly one entry per distinct identifier — its keys are duplicate-free and
range over exactly the requested identifiers, its size is the number of
distinct requested identifiers — and the entry of a tool is the result of its
last execution (the invocation whose counter is the tool's last occurrence
position). -/
theorem main_duplicate_tools (env : Env) (a : Args)
    (h1 : validate_target env a.target = true) (h2 : validate_tools a.tools = true)
    (h3 : truthyList a.ignore = false ∨ validate_ignore_paths env a.ignore = true) :
    (main env a).launched.length = a.tools.length
      ∧ (((main env a).results).map Prod.fst).Nodup
      ∧ (∀ x, x ∈ ((main env a).results).map Prod.fst ↔ x ∈ a.tools)
      ∧ (main env a).results.length = a.tools.toFinset.card
      ∧ (∀ t i, lastOccIdx a.tools t = some i →
          dictLookup (main env a).results t = some (toolResultAt env a t i)) := by
  have hr := main_run_eq env a h1 h2 h3
  have hsup : ∀ u ∈ a.tools, isSupported u = true := by
    intro u hu
    have h2' := h2
    unfold validate_tools at h2'
    rw [List.all_eq_true] at h2'
    exact h2' u hu
  refine ⟨?_, ?_, ?_, ?_, ?_⟩
  · rw [hr.2, runAll_launched_len env a a.tools 0 [] [] hsup]
    simp
  · rw [hr.1]
    exact runAll_keys_nodup env a a.tools 0 [] [] (by simp)
  · intro x
    rw [hr.1, runAll_keys_mem]
    simp
  · rw [hr.1]
    have hnod := runAll_keys_nodup env a a.tools 0 [] [] (by simp)
    have hset : (((runAll env a a.tools 0 [] []).1).map Prod.fst).toFinset
        = a.tools.toFinset := by
      ext x
      rw [List.mem_toFinset, List.mem_toFinset, runAll_keys_mem]
      simp
    rw [← List.length_map (runAll env a a.tools 0 [] []).1 Prod.fst]
    rw [← List.toFinset_card_of_nodup hnod, hset]
  · intro t i hi
    rw [hr.1]
    have := runAll_lookup_last env a a.tools 0 [] [] t i hi
    simpa using this

/-- C9 witness: requesting `["bandit", "flake8", "bandit"]` against an
environment whose processes report the invocation counter as exit code:
three launches, a two-entry result set, and the bandit entry is the result of
the last (third) execution. -/
theorem main_duplicate_tools_witness :
    (main env_ok args_dup).launched.length = 3
      ∧ dictLookup (main env_ok args_dup).results "bandit"
        = some (toolResultAt env_ok args_dup "bandit" 2)
      ∧ (main env_ok args_dup).results.length = 2 := by
  have h := main_duplicate_tools env_ok args_dup rfl (by decide) (Or.inl rfl)
  exact ⟨h.1.trans (by decide), h.2.2.2.2 "bandit" 2 (by decide),
    h.2.2.2.1.trans (by decide)⟩

/-- C10: when a (non-empty) output path is configured and the run completes,
every launched command line contains that same path — each tool receives it
as its native output flag — and after all tools have run the aggregate report
is written to that very path in write (truncate) mode, so the file's final
content is exactly the aggregate report, replacing anything the tools wrote
there. -/
theorem main_output_path_flow (env : Env) (a : Args) (p : String)
    (hp : a.output = some p) (hpne : p ≠ "")
    (h1 : validate_target env a.target = true) (h2 : validate_tools a.tools = true)
    (h3 : truthyList a.ignore = false ∨ validate_ignore_paths env a.ignore = true)
    (hW : env.writeOk = true) :
    (∀ cmd ∈ (main env a).launched, p ∈ cmd)
      ∧ (main env a).written = some (p, reportContent (main env a).results) := by
  have hr := main_run_eq env a h1 h2 h3
  constructor
  · intro cmd hc
    rw [hr.2] at hc
    rcases runAll_launched_mem env a a.tools 0 [] [] cmd hc with h | ⟨t, _, hbt⟩
    · cases h
    · rw [hp] at hbt
      exact build_command_mem_output t a.target p a.ignore a.offensive hpne cmd hbt
  · rw [hr.1]
    have hO : truthyStr a.output = true := by
      rw [hp]
      exact truthyStr_some p hpne
    unfold main
    rcases h3 with h3 | h3 <;>
      simp [h1, h2, h3, hO, hW, hp, outputVal, truthyStr_some p hpne]

/-- C10 witness: a full run with output path `report.txt` — every launched
command contains the path, and the final file content is the aggregate
report. -/
theorem main_output_path_flow_witness :
    (∀ cmd ∈ (main env_ok args_out).launched, "report.txt" ∈ cmd)
      ∧ (main env_ok args_out).written
        = some ("report.txt", reportContent (main env_ok args_out).results) :=
  ⟨(main_output_path_flow env_ok args_out "report.txt" rfl (by decide) rfl (by decide)
      (Or.inl rfl) rfl).1,
    (main_output_path_flow env_ok args_out "report.txt" rfl (by decide) rfl (by decide)
      (Or.inl rfl) rfl).2⟩

theorem count_flag_flatMap (flag : String) (l : List String) (h : flag ∉ l) :
    (l.flatMap (fun i => [flag, i])).count flag = l.length := by
  induction l with
  | nil => simp
  | cons x xs ih =>
    have hx : ¬(x = flag) := fun hc => h (hc ▸ List.mem_cons_self x xs)
    have hxs : flag ∉ xs := fun hc => h (List.mem_cons_of_mem x hc)
    simp [List.count_cons, List.count_append, ih hxs, hx, Ne.symm hx]

/-- C5: for every non-empty ignore list, the bandit command line carries the
per-path exclusion block — a `-x` flag followed by the path, once for each
path (so, when no other argument collides with the flag, exactly `|ignore|`
occurrences of `-x`) — whereas flake8 and pylint each carry a single
exclusion token (`--exclude` resp. `--ignore`) followed by the comma-joined
ignore list. -/
theorem ignore_exclusion_tokens (l : List String) (hl : l ≠ []) (target : String)
    (output : Option String) (offensive : Bool) :
    List.IsInfix (l.flatMap (fun i => ["-x", i]))
        (bandit_command target (some l) output offensive)
      ∧ ("-x" ∉ l → target ≠ "-x" → (∀ o, output = some o → o ≠ "-x") →
          (bandit_command target (some l) output offensive).count "-x" = l.length)
      ∧ List.IsInfix ["--exclude", String.intercalate "," l]
          (flake8_command target (some l) output)
      ∧ (target ≠ "--exclude" → String.intercalate "," l ≠ "--exclude" →
          (∀ o, output = some o → o ≠ "--exclude") →
          (flake8_command target (some l) output).count "--exclude" = 1)
      ∧ List.IsInfix ["--ignore", String.intercalate "," l]
          (pylint_command target (some l) output)
      ∧ (target ≠ "--ignore" → String.intercalate "," l ≠ "--ignore" →
          (∀ o, output = some o → o ≠ "--ignore") →
          (pylint_command target (some l) output).count "--ignore" = 1) := by
  have htr : truthyList (some l) = true := by
    cases l
    · exact absurd rfl hl
    · simp [truthyList]
  refine ⟨?_, ?_, ?_, ?_, ?_, ?_⟩
  · refine ⟨["bandit", "-r", target, "-q"]
        ++ (if offensive then ["-s", "B101,B301,B603,B605,B608"] else []),
      (if truthyStr output then ["-o", outputVal output, "-f", "txt"] else []), ?_⟩
    simp [bandit_command, htr, ignoreVal, List.append_assoc]
  · intro h1 h2 h3
    rcases output with _ | o
    · cases offensive <;>
        simp [bandit_command, htr, truthyStr, ignoreVal, List.count_append,
          count_flag_flatMap "-x" l h1, List.count_cons, Ne.symm h2]
    · have ho := h3 o rfl
      cases hto : truthyStr (some o) <;> cases offensive <;>
        simp [bandit_command, htr, hto, ignoreVal, outputVal, List.count_append,
          count_flag_flatMap "-x" l h1, List.count_cons, Ne.symm h2, Ne.symm ho]
  · refine ⟨["flake8", target],
      (if truthyStr output then ["--output-file", outputVal output] else []), ?_⟩
    simp [flake8_command, htr, ignoreVal, List.append_assoc]
  · intro h1 h2 h3
    rcases output with _ | o
    · simp [flake8_command, htr, truthyStr, ignoreVal, List.count_append,
        List.count_cons, Ne.symm h1, Ne.symm h2]
    · have ho := h3 o rfl
      cases hto : truthyStr (some o) <;>
        simp [flake8_command, htr, hto, ignoreVal, outputVal, List.count_append,
          List.count_cons, Ne.symm h1, Ne.symm h2, Ne.symm ho]
  · refine ⟨["pylint", target, "--disable=all", "--enable=security", "--reports=n"],
      (if truthyStr output then ["--output", outputVal output] else []), ?_⟩
    simp [pylint_command, htr, ignoreVal, List.append_assoc]
  · intro h1 h2 h3
    rcases output with _ | o
    · simp [pylint_command, htr, truthyStr, ignoreVal, List.count_append,
        List.count_cons, Ne.symm h1, Ne.symm h2]
    · have ho := h3 o rfl
      cases hto : truthyStr (some o) <;>
        simp [pylint_command, htr, hto, ignoreVal, outputVal, List.count_append,
          List.count_cons, Ne.symm h1, Ne.symm h2, Ne.symm ho]

/-- C5 witness: the exclusion tokens for the concrete ignore list
`["venv", "tests"]`. -/
theorem ignore_exclusion_tokens_witness :
    (bandit_command "proj" (some ["venv", "tests"]) none false).count "-x" = 2
      ∧ (flake8_command "proj" (some ["venv", "tests"]) none).count "--exclude" = 1
      ∧ List.IsInfix ["--ignore", String.intercalate "," ["venv", "tests"]]
          (pylint_command "proj" (some ["venv", "tests"]) none) := by
  have h := ignore_exclusion_tokens ["venv", "tests"] (by decide) "proj" none false
  exact ⟨h.2.1 (by decide) (by decide) (fun o ho => by cases ho),
    h.2.2.2.1 (by decide) (by decide) (fun o ho => by cases ho),
    h.2.2.2.2.1⟩

/-- C6: the bandit command line contains the extended-rule-set flag `-s`
(followed by the fixed rule list) exactly when the offensive flag is set —
provided no other argument collides with the literal `-s` — and the offensive
flag has no effect at all on the flake8 and pylint command lines. -/
theorem offensive_flag_tokens (target : String) (ignore : Option (List String))
    (output : Option String) (offensive : Bool)
    (h1 : target ≠ "-s") (h2 : ∀ l, ignore = some l → "-s" ∉ l)
    (h3 : ∀ o, output = some o → o ≠ "-s") :
    (("-s" ∈ bandit_command target ignore output offensive) ↔ offensive = true)
      ∧ (offensive = true →
          List.IsInfix ["-s", "B101,B301,B603,B605,B608"]
            (bandit_command target ignore output offensive))
      ∧ build_command "flake8" target ignore output offensive
          = build_command "flake8" target ignore output false
      ∧ build_command "pylint" target ignore output offensive
          = build_command "pylint" target ignore output false := by
  have key : "-s" ∉ bandit_command target ignore output false := by
    intro hm
    simp [bandit_command] at hm
    rcases hm with hm | ⟨hti, hm⟩ | ⟨hto, hm⟩
    · exact h1 hm.symm
    · rcases hi : ignore with _ | li
      · rw [hi] at hm
        simp [ignoreVal] at hm
      · rw [hi] at hm
        exact h2 li hi (by simpa [ignoreVal] using hm)
    · rcases ho : output with _ | o
      · rw [ho] at hm
        exact absurd hm (by decide)
      · rw [ho] at hm
        exact (h3 o ho) (by simpa [outputVal] using hm.symm)
  refine ⟨⟨?_, ?_⟩, ?_, rfl, rfl⟩
  · intro hm
    cases hoff : offensive
    · rw [hoff] at hm
      exact absurd hm key
    · rfl
  · intro ho
    subst ho
    simp [bandit_command]
  · intro ho
    subst ho
    refine ⟨["bandit", "-r", target, "-q"],
      (if truthyList ignore then (ignoreVal ignore).flatMap (fun i => ["-x", i]) else [])
        ++ (if truthyStr output then ["-o", outputVal output, "-f", "txt"] else []), ?_⟩
    simp [bandit_command, List.append_assoc]

/-- C6 witness: with no colliding arguments, `-s` is present exactly when the
offensive flag is set, and flake8's command line is unchanged by it. -/
theorem offensive_flag_tokens_witness :
    ("-s" ∈ bandit_command "proj" none none true)
      ∧ ("-s" ∉ bandit_command "proj" none none false)
      ∧ build_command "flake8" "proj" none none true
        = build_command "flake8" "proj" none none false := by
  have ht := offensive_flag_tokens "proj" none none true (by decide)
    (fun l hl => by cases hl) (fun o ho => by cases ho)
  have hf := offensive_flag_tokens "proj" none none false (by decide)
    (fun l hl => by cases hl) (fun o ho => by cases ho)
  refine ⟨ht.1.2 rfl, ?_, ht.2.2.1⟩
  intro hc
  exact absurd (hf.1.1 hc) (by decide)

end CodeIntel
